import Mathlib

/-!
Verification of the kstars collection pipeline.

The collection stage is the bash script embedded here as pure functions:
slug derivation (get_fs_friendly_lang), the per-language fetch step
(fetch_repos) producing a state transition plus an event trace, and the
driver loop (runPipeline / mainRun).  The presentation layer path
construction comes from the javascript sources (loadCSVPath, csvPath,
uiLanguages, truncateStringAtWord).  The ranking stage is not part of the
sources and is modelled from the specification where needed.
-/

namespace KStars

/-! ### Slug derivation, from get_fs_friendly_lang in the bash script -/

/-- One pass of the sed command that replaces every maximal run of
characters outside a-zA-Z0-9 by a single underscore.  The boolean records
whether the previous character belonged to such a run, in which case the
underscore for the run was already emitted. -/
def collapseAux : Bool → List Char → List Char
  | _, [] => []
  | prevRun, c :: cs =>
    if c.isAlphanum then c :: collapseAux false cs
    else if prevRun then collapseAux true cs
    else '_' :: collapseAux true cs

/-- The default branch of the case statement: the sed collapse piped into
tr upper to lower. -/
def defaultSlug (lang : String) : String :=
  ⟨(collapseAux false lang.toList).map Char.toLower⟩

/-- get_fs_friendly_lang from the bash script: explicit overrides for four
language names, the sed plus tr conversion for everything else. -/
def get_fs_friendly_lang (lang : String) : String :=
  if lang = "c++" then "cpp"
  else if lang = "c#" then "csharp"
  else if lang = "objective-c" then "objective_c"
  else if lang = "vim script" then "vim_script"
  else defaultSlug lang

/-- The configured language list of the bash script, in order. -/
def languages : List String :=
  ["actionscript", "c", "c++", "css", "c#", "clojure", "coffeescript", "dm",
   "dart", "elixir", "go", "groovy", "html", "haskell", "java", "javascript",
   "julia", "kotlin", "lua", "matlab", "objective-c", "php", "perl",
   "powershell", "python", "r", "ruby", "rust", "scala", "shell", "swift",
   "tex", "typescript", "vim script"]

/-! ### Pipeline model, from the fetch script

The cache directory is a map from slug to the content of the artifact file
when it exists.  A run threads a state (cache plus the FETCH_PERFORMED
flag) through the language list and records an event trace: cache skips,
sleeps, and outbound search calls with their outcome. -/

/-- The delay the script sleeps between requests (DELAY_SECONDS=30). -/
def DELAY_SECONDS : Nat := 30

/-- Outcome of one gh search invocation for a language: success with the
full output written through the redirection, or failure, in which case the
redirection has still created the file holding whatever incomplete output
was produced before gh exited nonzero. -/
inductive FetchResult where
  | ok (content : String)
  | err (leftover : String)
deriving DecidableEq

/-- Observable events of a run: a cache skip, a sleep, or one outbound
search API call together with whether it succeeded. -/
inductive Event where
  | skip (lang : String)
  | sleep (secs : Nat)
  | call (lang : String) (ok : Bool)
deriving DecidableEq

/-- Mutable state of a run: the cache directory contents and the
FETCH_PERFORMED flag (initially 0). -/
structure PipelineState where
  cache : String → Option String
  fetchPerformed : Bool

/-- Point update of the cache directory: the file for one slug is created,
overwritten or (with none) removed. -/
def updateCache (cache : String → Option String) (slug : String)
    (v : Option String) : String → Option String :=
  fun s => if s = slug then v else cache s

/-- The existence test the script uses before fetching: test -f on the
artifact path, true exactly when the file exists, whatever its content. -/
def hasArtifact (cache : String → Option String) (slug : String) : Bool :=
  (cache slug).isSome

/-- fetch_repos from the bash script, as a state transition plus the event
trace of the iteration.  If the artifact file exists the language is
skipped and FETCH_PERFORMED is reset.  Otherwise the script sleeps when
the previous iteration performed a successful fetch, then issues the
search call with output redirected to the final path: on success the file
holds the content and FETCH_PERFORMED is set; on failure the incomplete
file created by the redirection is removed with rm -f and FETCH_PERFORMED
is reset. -/
def fetch_repos (outcomes : String → FetchResult) (st : PipelineState)
    (lang : String) : PipelineState × List Event :=
  let slug := get_fs_friendly_lang lang
  match st.cache slug with
  | some _ => ({ st with fetchPerformed := false }, [Event.skip lang])
  | none =>
    let sleeps := if st.fetchPerformed then [Event.sleep DELAY_SECONDS] else []
    match outcomes lang with
    | FetchResult.ok content =>
        ({ cache := updateCache st.cache slug (some content),
           fetchPerformed := true },
         sleeps ++ [Event.call lang true])
    | FetchResult.err leftover =>
        ({ cache := updateCache (updateCache st.cache slug (some leftover))
             slug none,
           fetchPerformed := false },
         sleeps ++ [Event.call lang false])

/-- The loop of main in the bash script: fetch_repos for each configured
language in order, accumulating the event trace. -/
def runPipeline (outcomes : String → FetchResult) :
    PipelineState → List String → PipelineState × List Event
  | st, [] => (st, [])
  | st, l :: ls =>
    let step := fetch_repos outcomes st l
    let rest := runPipeline outcomes step.1 ls
    (rest.1, step.2 ++ rest.2)

/-- A whole run of the script: the loop over the configured languages
starting from FETCH_PERFORMED=0, followed by the final echo.  The process
exit status is the status of that last echo, hence 0 — the script tracks
no per-language failure for its exit code. -/
def mainRun (outcomes : String → FetchResult)
    (initCache : String → Option String) :
    PipelineState × List Event × Nat :=
  let run := runPipeline outcomes ⟨initCache, false⟩ languages
  (run.1, run.2, 0)

/-- Modelled semantics of the shell redirection writing the artifact: the
output file is created at its final path and filled incrementally, so a
crash after k characters of a fetch that would have produced content
leaves the k character prefix of content at the final path.  The script
uses no temporary location and no rename. -/
def crashMidWrite (cache : String → Option String) (slug content : String)
    (k : Nat) : String → Option String :=
  updateCache cache slug (some ⟨content.toList.take k⟩)

/-! ### Ranker, modelled from the spec

The ranking stage (the python entry point driven by the Makefile) is not
among the sources; only its contract is specified.  The definitions below
are therefore modelled from the spec. -/

/-- Modelled from the spec: a raw repository record as far as ranking is
concerned.  The full RepositoryRecord carries more fields (url, forks,
watchers, timestamps, license and so on); ranking depends only on identity
and star count, which this model keeps. -/
structure RawRepo where
  name : String
  stars : Nat
deriving DecidableEq

/-- Modelled from the spec: a ranked output row, a record plus its dense
1-based rank. -/
structure RankedRow where
  rank : Nat
  name : String
  stars : Nat
deriving DecidableEq

/-- Descending star order used by the ranker: a comes no later than b when
a has at least as many stars. -/
def starsGE (a b : RawRepo) : Prop := b.stars ≤ a.stars

instance : DecidableRel starsGE := fun a b => Nat.decLe b.stars a.stars

instance : IsTotal RawRepo starsGE := ⟨fun a b => Nat.le_total b.stars a.stars⟩

instance : IsTrans RawRepo starsGE :=
  ⟨fun _ _ _ h1 h2 => Nat.le_trans h2 h1⟩

/-- Modelled from the spec: stable sort of the records by star count
descending, ties keeping the original order. -/
def sortRepos (rs : List RawRepo) : List RawRepo :=
  List.insertionSort starsGE rs

/-- Dense rank assignment by position, starting from the given index. -/
def assignRanks : Nat → List RawRepo → List RankedRow
  | _, [] => []
  | i, r :: rs => { rank := i, name := r.name, stars := r.stars }
      :: assignRanks (i + 1) rs

/-- Modelled from the spec: rank(records) stable-sorts by star count
descending and assigns dense 1-based ranks by position. -/
def rank (rs : List RawRepo) : List RankedRow :=
  assignRanks 1 (sortRepos rs)

/-! ### Presentation layer paths, from the javascript sources -/

/-- The homepage language table of js/main.js: first component the file
identifier used in CSV paths and link parameters, second the display
name. -/
def uiLanguages : List (String × String) :=
  [("ActionScript", "ActionScript"), ("C", "C"), ("CSharp", "C#"),
   ("CPP", "C++"), ("Clojure", "Clojure"), ("CoffeeScript", "CoffeeScript"),
   ("CSS", "CSS"), ("Dart", "Dart"), ("DM", "DM"), ("Elixir", "Elixir"),
   ("Go", "Go"), ("Groovy", "Groovy"), ("Haskell", "Haskell"),
   ("HTML", "HTML"), ("Java", "Java"), ("JavaScript", "JavaScript"),
   ("Julia", "Julia"), ("Kotlin", "Kotlin"), ("Lua", "Lua"),
   ("MATLAB", "MATLAB"), ("Objective-C", "Objective-C"), ("Perl", "Perl"),
   ("PHP", "PHP"), ("PowerShell", "PowerShell"), ("Prolog", "Prolog"),
   ("Python", "Python"), ("R", "R"), ("Ruby", "Ruby"), ("Rust", "Rust"),
   ("Scala", "Scala"), ("Shell", "Shell"), ("Swift", "Swift"),
   ("TeX", "TeX"), ("TypeScript", "TypeScript"), ("Vim-script", "Vim script")]

/-- The path loadCSV in js/main.js requests: the folder, a slash, the
given file name piece, the language file identifier and .csv.  The
homepage calls it with folder data/processed and piece top10_. -/
def loadCSVPath (folder pieceName fileId : String) : String :=
  folder ++ "/" ++ pieceName ++ fileId ++ ".csv"

/-- The path js/language-page.js builds from the lang query parameter for
the full per-language table. -/
def csvPath (lang : String) : String :=
  "../data/processed/" ++ lang ++ ".csv"

/-- Modelled from the spec: the name of the full per-language output file
written by the collection stage, slug plus .csv. -/
def specFullFileName (slug : String) : String := slug ++ ".csv"

/-- Modelled from the spec: the name of the top-10 per-language output
file written by the collection stage. -/
def specTop10FileName (slug : String) : String := "top10_" ++ slug ++ ".csv"

/-- ASCII lowercase of a display name: the bridge between the javascript
display names (C#, Vim script, ...) and the bash configured canonical
names (c#, vim script, ...), which are exactly their lowercase forms. -/
def lowerName (s : String) : String := ⟨s.toList.map Char.toLower⟩

/-! ### Display truncation, from truncateStringAtWord in js/main.js -/

/-- Index of the last occurrence of the space character in a character
list, none when no space occurs: the lastIndexOf of the javascript (which
returns -1 for no occurrence). -/
def lastSpaceIdx : List Char → Option Nat
  | [] => none
  | c :: cs =>
    match lastSpaceIdx cs with
    | some i => some (i + 1)
    | none => if c = ' ' then some 0 else none

/-- truncateStringAtWord from js/main.js over character lists: a string of
length at most maxChars is returned unchanged; otherwise the first
maxChars characters are kept, cut back to just before their last space
when one exists, and three dots are appended. -/
def truncateStringAtWord (s : List Char) (maxChars : Nat) : List Char :=
  if s.length ≤ maxChars then s
  else
    let truncated := s.take maxChars
    match lastSpaceIdx truncated with
    | none => truncated ++ ['.', '.', '.']
    | some i => truncated.take i ++ ['.', '.', '.']

/-! ### Theorems -/

/-- C3: slug derivation is a pure function of the configured canonical
name, the explicit overrides map the cpp, csharp and objective_c cases as
stated, and over the configured 34-language list no two distinct names
yield the same slug. -/
theorem C3_slug_deterministic_injective :
    languages.length = 34
    ∧ get_fs_friendly_lang "c++" = "cpp"
    ∧ get_fs_friendly_lang "c#" = "csharp"
    ∧ get_fs_friendly_lang "objective-c" = "objective_c"
    ∧ List.Pairwise
        (fun a b => get_fs_friendly_lang a ≠ get_fs_friendly_lang b)
        languages := by
  refine ⟨rfl, rfl, rfl, rfl, ?_⟩
  decide

/-- C4 counterexample: a run in which every language fails (empty cache,
every search call errors) still exits with status 0, contradicting the
claim that a failed language makes the exit status non-zero. -/
theorem C4_counterexample :
    (mainRun (fun _ => FetchResult.err "") (fun _ => none)).2.2 = 0
    ∧ Event.call "actionscript" false
        ∈ (mainRun (fun _ => FetchResult.err "") (fun _ => none)).2.1 := by
  refine ⟨rfl, ?_⟩
  have h : ((mainRun (fun _ => FetchResult.err "") (fun _ => none)).2.1.take 1)
      = [Event.call "actionscript" false] := rfl
  exact List.take_subset 1 _ (h ▸ List.mem_singleton_self _)

/-- C4 amended: the process exit status of the script is 0 for every
outcome assignment and every initial cache; the script ends with an echo
and aggregates no per-language failure into its exit code. -/
theorem C4_exit_always_zero
    (outcomes : String → FetchResult) (initCache : String → Option String) :
    (mainRun outcomes initCache).2.2 = 0 := rfl

/-- C5 counterexample: with an empty cache and a first language whose
fetch fails, the first two events of the run are two outbound calls with
no sleep between them, so no inter-request delay separates a failed call
from the next call. -/
theorem C5_counterexample :
    ((mainRun (fun _ => FetchResult.err "") (fun _ => none)).2.1.take 2)
      = [Event.call "actionscript" false, Event.call "c" false] := rfl

/-- C5 amended: in one iteration of fetch_repos, the sleep of
DELAY_SECONDS occurs exactly when the previous iteration left
FETCH_PERFORMED set and the artifact is absent (so a call happens), and
FETCH_PERFORMED is left set exactly when this iteration performed a
successful non-cached fetch.  Hence the delay separates consecutive calls
exactly when the earlier of the two succeeded and no cache skip came
between them; after a failed call or a skip the next call is immediate. -/
theorem C5_sleep_iff_previous_success
    (outcomes : String → FetchResult) (st : PipelineState) (lang : String) :
    (Event.sleep DELAY_SECONDS ∈ (fetch_repos outcomes st lang).2
      ↔ st.fetchPerformed = true
          ∧ st.cache (get_fs_friendly_lang lang) = none)
    ∧ ((fetch_repos outcomes st lang).1.fetchPerformed = true
      ↔ st.cache (get_fs_friendly_lang lang) = none
          ∧ ∃ c, outcomes lang = FetchResult.ok c) := by
  rcases hc : st.cache (get_fs_friendly_lang lang) with _ | v
  · rcases ho : outcomes lang with c | p <;>
      rcases hf : st.fetchPerformed <;>
        simp [fetch_repos, hc, ho, hf]
  · simp [fetch_repos, hc]

/-- Helper: when every language of the list has an existing artifact, the
loop leaves the cache untouched and its trace consists of skips only. -/
theorem runPipeline_all_cached (outcomes : String → FetchResult) :
    ∀ (langs : List String) (st : PipelineState),
      (∀ l ∈ langs, (st.cache (get_fs_friendly_lang l)).isSome = true) →
      (runPipeline outcomes st langs).1.cache = st.cache
        ∧ ∀ e ∈ (runPipeline outcomes st langs).2, ∃ l, e = Event.skip l := by
  intro langs
  induction langs with
  | nil => intro st _; exact ⟨rfl, by intro e he; cases he⟩
  | cons l ls ih =>
    intro st h
    have hl := h l (List.mem_cons_self l ls)
    rcases hv : st.cache (get_fs_friendly_lang l) with _ | v
    · rw [hv] at hl; cases hl
    · have hstep : fetch_repos outcomes st l
          = ({ st with fetchPerformed := false }, [Event.skip l]) := by
        simp [fetch_repos, hv]
      have hrest := ih { st with fetchPerformed := false }
        (fun l2 hl2 => h l2 (List.mem_cons_of_mem l hl2))
      constructor
      · show (runPipeline outcomes st (l :: ls)).1.cache = st.cache
        simp only [runPipeline, hstep]
        exact hrest.1
      · intro e he
        simp only [runPipeline, hstep, List.mem_append] at he
        rcases he with he | he
        · rcases List.mem_singleton.mp he with rfl
          exact ⟨l, rfl⟩
        · exact hrest.2 e he

/-- C1: starting from a cache directory holding an artifact file for every
configured language, the run performs zero outbound search calls and
leaves the cache exactly as it was: every iteration returns after the
existence check. -/
theorem C1_cached_run_no_fetch
    (outcomes : String → FetchResult) (cache : String → Option String)
    (h : ∀ l ∈ languages, (cache (get_fs_friendly_lang l)).isSome = true) :
    (runPipeline outcomes ⟨cache, false⟩ languages).1.cache = cache
      ∧ ∀ lang ok, Event.call lang ok
          ∉ (runPipeline outcomes ⟨cache, false⟩ languages).2 := by
  have hrun := runPipeline_all_cached outcomes languages ⟨cache, false⟩ h
  refine ⟨hrun.1, ?_⟩
  intro lang ok hmem
  rcases hrun.2 _ hmem with ⟨l, hl⟩
  cases hl

/-- C1 witness: a concrete fully populated cache (every slug maps to an
artifact) with failing outcomes still yields an unchanged cache and a
trace free of calls. -/
theorem C1_witness :
    (runPipeline (fun _ => FetchResult.err "")
        ⟨(fun _ => some "data"), false⟩ languages).1.cache
        = (fun _ => some "data")
      ∧ ∀ lang ok, Event.call lang ok
          ∉ (runPipeline (fun _ => FetchResult.err "")
              ⟨(fun _ => some "data"), false⟩ languages).2 :=
  C1_cached_run_no_fetch _ _ (fun _ _ => rfl)

/-- C2 counterexample: the write is a plain redirection to the final path,
so a crash after two of the four characters of the artifact content leaves
a file that the existence check reports as present although its content is
a strict prefix of the intended serialization — a corrupt artifact visible
to the skip test, contradicting the claimed temporary-location-and-rename
write. -/
theorem C2_counterexample :
    hasArtifact (crashMidWrite (fun _ => none) "c" "data" 2) "c" = true
    ∧ crashMidWrite (fun _ => none) "c" "data" 2 "c" = some "da"
    ∧ ("da" : String) ≠ "data" := by
  refine ⟨rfl, rfl, ?_⟩
  decide

/-- C2 amended: the store writes the artifact directly to its final path
through the shell redirection, with no temporary location and no rename;
for every crash after k characters of an intended content of length
greater than k, the artifact file exists (so the skip check sees it) yet
holds only the k character prefix, different from the full content. -/
theorem C2_direct_write_crash_visible
    (cache : String → Option String) (slug content : String) (k : Nat)
    (hk : k < content.length) :
    hasArtifact (crashMidWrite cache slug content k) slug = true
    ∧ crashMidWrite cache slug content k slug
        = some ⟨content.toList.take k⟩
    ∧ (⟨content.toList.take k⟩ : String) ≠ content := by
  have hupd : crashMidWrite cache slug content k slug
      = some ⟨content.toList.take k⟩ := by
    unfold crashMidWrite updateCache
    rw [if_pos rfl]
  refine ⟨?_, hupd, ?_⟩
  · unfold hasArtifact
    rw [hupd]
    rfl
  · intro hEq
    have h2 : List.take k content.data = content.data :=
      congrArg String.data hEq
    have h3 := congrArg List.length h2
    rw [List.length_take] at h3
    have hk2 : k < content.data.length := hk
    omega

/-- C2 witness: the amended statement evaluated at a concrete mid-write
crash point. -/
theorem C2_witness :
    (2 < ("data" : String).length)
    ∧ (hasArtifact (crashMidWrite (fun _ => some "x") "go" "data" 2) "go"
          = true
        ∧ crashMidWrite (fun _ => some "x") "go" "data" 2 "go"
            = some ⟨("data" : String).toList.take 2⟩
        ∧ (⟨("data" : String).toList.take 2⟩ : String) ≠ "data") :=
  ⟨by decide, C2_direct_write_crash_visible _ "go" "data" 2 (by decide)⟩

/-- Helper: when no artifact file exists for the slug of a language, the
iteration issues an outbound call (successful or not). -/
theorem call_mem_fetch_repos (outcomes : String → FetchResult)
    (st : PipelineState) (lang : String)
    (h : st.cache (get_fs_friendly_lang lang) = none) :
    ∃ ok, Event.call lang ok ∈ (fetch_repos outcomes st lang).2 := by
  rcases ho : outcomes lang with c | p
  · refine ⟨true, ?_⟩
    simp only [fetch_repos, h, ho]
    exact List.mem_append_right _ (List.mem_singleton_self _)
  · refine ⟨false, ?_⟩
    simp only [fetch_repos, h, ho]
    exact List.mem_append_right _ (List.mem_singleton_self _)

/-- C7 counterexample: a cache holding an empty artifact file for slug c —
empty, hence invalid under the claimed existence-plus-non-empty-plus-
parsable contract — still makes the iteration skip: the trace is a single
skip event and the empty file is left in place, so the claimed fresh fetch
never happens. -/
theorem C7_counterexample :
    (fetch_repos (fun _ => FetchResult.ok "fresh")
        ⟨(fun s => if s = "c" then some "" else none), false⟩ "c").2
      = [Event.skip "c"]
    ∧ (fetch_repos (fun _ => FetchResult.ok "fresh")
        ⟨(fun s => if s = "c" then some "" else none), false⟩ "c").1.cache "c"
      = some "" := ⟨rfl, rfl⟩

/-- C7 amended: the skip test is a bare file-existence check.  Whenever
the artifact file exists — whatever its content, including empty or
unparsable — the iteration skips without a call and leaves the cache
untouched; a call is issued exactly when no file exists for the slug. -/
theorem C7_has_is_bare_existence
    (outcomes : String → FetchResult) (st : PipelineState) (lang : String) :
    (hasArtifact st.cache (get_fs_friendly_lang lang) = true →
        (fetch_repos outcomes st lang).2 = [Event.skip lang]
        ∧ (fetch_repos outcomes st lang).1.cache = st.cache)
    ∧ (hasArtifact st.cache (get_fs_friendly_lang lang) = false →
        ∃ ok, Event.call lang ok ∈ (fetch_repos outcomes st lang).2) := by
  constructor
  · intro h
    rcases hv : st.cache (get_fs_friendly_lang lang) with _ | v
    · rw [hasArtifact, hv] at h; cases h
    · simp [fetch_repos, hv]
  · intro h
    rcases hv : st.cache (get_fs_friendly_lang lang) with _ | v
    · exact call_mem_fetch_repos outcomes st lang hv
    · rw [hasArtifact, hv] at h; cases h

/-- C7 witness: the amended statement at a concrete state whose cache is
empty, showing a call is issued. -/
theorem C7_witness :
    (hasArtifact (PipelineState.cache ⟨(fun _ => none), false⟩)
        (get_fs_friendly_lang "go") = false)
    ∧ ∃ ok, Event.call "go" ok
        ∈ (fetch_repos (fun _ => FetchResult.ok "x")
            ⟨(fun _ => none), false⟩ "go").2 :=
  ⟨rfl, (C7_has_is_bare_existence (fun _ => FetchResult.ok "x")
      ⟨(fun _ => none), false⟩ "go").2 rfl⟩

/-- C9: when no artifact exists and the fetch for a language fails, the
file created by the redirection is removed again before fetch_repos
returns — the cache is back to the absent state for that slug — and a
subsequent run re-attempts the fetch for that language instead of
skipping it. -/
theorem C9_failed_fetch_removes_artifact
    (outcomes outcomes2 : String → FetchResult) (st : PipelineState)
    (lang leftover : String)
    (habs : st.cache (get_fs_friendly_lang lang) = none)
    (hfail : outcomes lang = FetchResult.err leftover) :
    (fetch_repos outcomes st lang).1.cache (get_fs_friendly_lang lang) = none
    ∧ ∃ ok, Event.call lang ok
        ∈ (fetch_repos outcomes2 (fetch_repos outcomes st lang).1 lang).2 := by
  have hstate : (fetch_repos outcomes st lang).1.cache
      (get_fs_friendly_lang lang) = none := by
    simp [fetch_repos, habs, hfail, updateCache]
  exact ⟨hstate, call_mem_fetch_repos outcomes2 _ lang hstate⟩

/-- C9 witness: the statement at a concrete empty cache with a failing
first fetch and a succeeding retry. -/
theorem C9_witness :
    ((PipelineState.cache ⟨(fun _ => none), false⟩)
        (get_fs_friendly_lang "go") = none)
    ∧ ((fun _ => FetchResult.err "junk") "go" = FetchResult.err "junk")
    ∧ ((fetch_repos (fun _ => FetchResult.err "junk")
          ⟨(fun _ => none), false⟩ "go").1.cache
            (get_fs_friendly_lang "go") = none
        ∧ ∃ ok, Event.call "go" ok
            ∈ (fetch_repos (fun _ => FetchResult.ok "x")
                (fetch_repos (fun _ => FetchResult.err "junk")
                  ⟨(fun _ => none), false⟩ "go").1 "go").2) :=
  ⟨rfl, rfl, C9_failed_fetch_removes_artifact _ _ _ "go" "junk" rfl rfl⟩

/-- Helper: when lastSpaceIdx finds no index, the list holds no space. -/
theorem lastSpaceIdx_none :
    ∀ (l : List Char), lastSpaceIdx l = none → ∀ c ∈ l, c ≠ ' '
  | [], _, c, hc => absurd hc (List.not_mem_nil c)
  | c :: cs, h, d, hd => by
    simp only [lastSpaceIdx] at h
    rcases hcs : lastSpaceIdx cs with _ | k
    · rw [hcs] at h
      by_cases hc : c = ' '
      · rw [if_pos hc] at h; cases h
      · rcases List.mem_cons.mp hd with rfl | hmem
        · exact hc
        · exact lastSpaceIdx_none cs hcs d hmem
    · rw [hcs] at h; cases h

/-- Helper: the index lastSpaceIdx returns carries a space, and no later
position of the list does. -/
theorem lastSpaceIdx_spec :
    ∀ (l : List Char) (i : Nat), lastSpaceIdx l = some i →
      l[i]? = some ' ' ∧ ∀ j, i < j → ∀ c, l[j]? = some c → c ≠ ' '
  | [], i, h => by cases h
  | c :: cs, i, h => by
    simp only [lastSpaceIdx] at h
    rcases hcs : lastSpaceIdx cs with _ | k
    · rw [hcs] at h
      by_cases hc : c = ' '
      · rw [if_pos hc] at h
        injection h with h
        subst h
        refine ⟨by simp [hc], ?_⟩
        intro j hj d hd
        rcases j with _ | j
        · cases hj
        · rw [List.getElem?_cons_succ] at hd
          exact lastSpaceIdx_none cs hcs d (List.getElem?_mem hd)
      · rw [if_neg hc] at h; cases h
    · rw [hcs] at h
      injection h with h
      subst h
      have ih := lastSpaceIdx_spec cs k hcs
      refine ⟨by simpa using ih.1, ?_⟩
      intro j hj d hd
      rcases j with _ | j
      · cases hj
      · rw [List.getElem?_cons_succ] at hd
        exact ih.2 j (Nat.lt_of_succ_lt_succ hj) d hd

/-- C10: a string no longer than the bound is returned unchanged by
truncateStringAtWord; a longer string becomes a prefix of itself of length
at most the bound followed by three dots, where the kept prefix is the
first maxChars characters when they hold no space and otherwise those
characters cut back to just before their last space. -/
theorem C10_truncate_at_word (s : List Char) (maxChars : Nat) :
    (s.length ≤ maxChars → truncateStringAtWord s maxChars = s)
    ∧ (maxChars < s.length →
        ∃ p, truncateStringAtWord s maxChars = p ++ ['.', '.', '.']
          ∧ p <+: s ∧ p.length ≤ maxChars
          ∧ ((∀ c ∈ s.take maxChars, c ≠ ' ') → p = s.take maxChars)
          ∧ (∀ i, lastSpaceIdx (s.take maxChars) = some i →
              p = (s.take maxChars).take i
              ∧ (s.take maxChars)[i]? = some ' '
              ∧ ∀ j, i < j → ∀ c, (s.take maxChars)[j]? = some c →
                  c ≠ ' ')) := by
  constructor
  · intro h
    simp only [truncateStringAtWord, if_pos h]
  · intro h
    have hnle : ¬ s.length ≤ maxChars := Nat.not_le.mpr h
    rcases hidx : lastSpaceIdx (s.take maxChars) with _ | i
    · refine ⟨s.take maxChars, ?_, List.take_prefix maxChars s, ?_, ?_, ?_⟩
      · simp only [truncateStringAtWord, if_neg hnle, hidx]
      · rw [List.length_take]
        exact Nat.min_le_left _ _
      · intro _; rfl
      · intro i hi
        cases hi
    · have hspec := lastSpaceIdx_spec (s.take maxChars) i hidx
      refine ⟨(s.take maxChars).take i, ?_, ?_, ?_, ?_, ?_⟩
      · simp only [truncateStringAtWord, if_neg hnle, hidx]
      · exact (List.take_prefix i _).trans (List.take_prefix maxChars s)
      · rw [List.length_take, List.length_take]
        exact Nat.le_trans (Nat.min_le_right _ _) (Nat.min_le_left _ _)
      · intro hnone
        exact absurd (hnone ' ' (List.getElem?_mem hspec.1)) (by simp)
      · intro i2 hi2
        injection hi2 with hi2
        subst hi2
        exact ⟨rfl, hspec.1, hspec.2⟩

/-- C10 witness: the documented example — truncating I love birds at 10
keeps I love and appends the dots. -/
theorem C10_witness :
    (10 < ("I love birds".toList).length)
    ∧ ∃ p, truncateStringAtWord ("I love birds".toList) 10
          = p ++ ['.', '.', '.']
        ∧ p <+: ("I love birds".toList) ∧ p.length ≤ 10
        ∧ ((∀ c ∈ ("I love birds".toList).take 10, c ≠ ' ') →
            p = ("I love birds".toList).take 10)
        ∧ (∀ i, lastSpaceIdx (("I love birds".toList).take 10) = some i →
            p = (("I love birds".toList).take 10).take i
            ∧ (("I love birds".toList).take 10)[i]? = some ' '
            ∧ ∀ j, i < j → ∀ c,
                (("I love birds".toList).take 10)[j]? = some c → c ≠ ' ') :=
  ⟨by decide, (C10_truncate_at_word ("I love birds".toList) 10).2 (by decide)⟩

/-- Helper: the ranks assigned by assignRanks starting at i are exactly
the consecutive integers from i. -/
theorem assignRanks_map_rank : ∀ (i : Nat) (l : List RawRepo),
    (assignRanks i l).map RankedRow.rank = List.range' i l.length
  | _, [] => rfl
  | i, _ :: rs => by
    simp only [assignRanks, List.map_cons, List.length_cons, List.range'_succ]
    exact congrArg (i :: ·) (assignRanks_map_rank (i + 1) rs)

/-- Helper: forgetting the ranks recovers the sorted record list, so rank
assignment changes neither content nor order. -/
theorem assignRanks_map_raw : ∀ (i : Nat) (l : List RawRepo),
    (assignRanks i l).map (fun row => RawRepo.mk row.name row.stars) = l
  | _, [] => rfl
  | i, r :: rs => congrArg (r :: ·) (assignRanks_map_raw (i + 1) rs)

/-- Helper: the star counts of the ranked rows are those of the sorted
records, in order. -/
theorem assignRanks_map_stars : ∀ (i : Nat) (l : List RawRepo),
    (assignRanks i l).map RankedRow.stars = l.map RawRepo.stars
  | _, [] => rfl
  | i, r :: rs => congrArg (r.stars :: ·) (assignRanks_map_stars (i + 1) rs)

/-- Helper: filtering an ordered insertion at a star value keeps the
inserted record first among equal stars — records skipped over have
strictly more stars, so they never share the value of the inserted one. -/
theorem filter_stars_orderedInsert (s : Nat) (a : RawRepo) :
    ∀ L : List RawRepo,
      (List.orderedInsert starsGE a L).filter (fun r => r.stars = s)
        = if a.stars = s
          then a :: L.filter (fun r => r.stars = s)
          else L.filter (fun r => r.stars = s)
  | [] => by
    by_cases ha : a.stars = s <;>
      simp [List.orderedInsert, List.filter, ha]
  | b :: L => by
    by_cases hab : starsGE a b
    · by_cases ha : a.stars = s <;> by_cases hb : b.stars = s <;>
        simp [List.orderedInsert, hab, List.filter_cons, ha, hb]
    · have ih := filter_stars_orderedInsert s a L
      by_cases ha : a.stars = s
      · have hbs : b.stars ≠ s := by
          intro hbs
          exact hab (le_of_eq (ha ▸ hbs))
        simp [List.orderedInsert, hab, List.filter_cons, ha, hbs, ih]
      · by_cases hb : b.stars = s <;>
          simp [List.orderedInsert, hab, List.filter_cons, ha, hb, ih]

/-- Helper: the stable sort preserves, for every star value, the exact
subsequence of records carrying that value — ties keep the input order. -/
theorem filter_stars_sortRepos (s : Nat) : ∀ rs : List RawRepo,
    (sortRepos rs).filter (fun r => r.stars = s)
      = rs.filter (fun r => r.stars = s)
  | [] => rfl
  | a :: rs => by
    have ih := filter_stars_sortRepos s rs
    show (List.orderedInsert starsGE a (sortRepos rs)).filter
        (fun r => r.stars = s) = _
    rw [filter_stars_orderedInsert]
    by_cases ha : a.stars = s <;> simp [List.filter_cons, ha, ih]

/-- C6: rank of a record set is ordered by star count descending with
ties in input order, its rank column is the contiguous sequence 1..n for
n the input size, forgetting ranks recovers the stable sort, and the
documented three-record example ranks b first, c second, a third with b
still before c. -/
theorem C6_rank_sorted_dense_stable (rs : List RawRepo) (h : rs ≠ []) :
    ((rank rs).map RankedRow.rank = List.range' 1 rs.length)
    ∧ ((rank rs).map RankedRow.stars).Pairwise (fun a b => b ≤ a)
    ∧ ((rank rs).map (fun row => RawRepo.mk row.name row.stars)
        = sortRepos rs)
    ∧ (∀ s : Nat, (sortRepos rs).filter (fun r => r.stars = s)
        = rs.filter (fun r => r.stars = s))
    ∧ rank [⟨"a/a", 5⟩, ⟨"b/b", 10⟩, ⟨"c/c", 10⟩]
        = [⟨1, "b/b", 10⟩, ⟨2, "c/c", 10⟩, ⟨3, "a/a", 5⟩] := by
  refine ⟨?_, ?_, ?_, ?_, ?_⟩
  · rw [rank, assignRanks_map_rank, sortRepos,
      (List.perm_insertionSort starsGE rs).length_eq]
  · rw [rank, assignRanks_map_stars]
    exact List.pairwise_map.mpr (List.sorted_insertionSort starsGE rs)
  · exact assignRanks_map_raw 1 (sortRepos rs)
  · exact fun s => filter_stars_sortRepos s rs
  · rfl

/-- C6 witness: the statement evaluated at the documented non-empty
three-record input. -/
theorem C6_witness :
    (([⟨"a/a", 5⟩, ⟨"b/b", 10⟩, ⟨"c/c", 10⟩] : List RawRepo) ≠ [])
    ∧ (((rank [⟨"a/a", 5⟩, ⟨"b/b", 10⟩, ⟨"c/c", 10⟩]).map RankedRow.rank
          = List.range' 1
              ([⟨"a/a", 5⟩, ⟨"b/b", 10⟩, ⟨"c/c", 10⟩] : List RawRepo).length)
        ∧ ((rank [⟨"a/a", 5⟩, ⟨"b/b", 10⟩, ⟨"c/c", 10⟩]).map
            RankedRow.stars).Pairwise (fun a b => b ≤ a)
        ∧ ((rank [⟨"a/a", 5⟩, ⟨"b/b", 10⟩, ⟨"c/c", 10⟩]).map
              (fun row => RawRepo.mk row.name row.stars)
            = sortRepos [⟨"a/a", 5⟩, ⟨"b/b", 10⟩, ⟨"c/c", 10⟩])
        ∧ (∀ s : Nat,
            (sortRepos [⟨"a/a", 5⟩, ⟨"b/b", 10⟩, ⟨"c/c", 10⟩]).filter
                (fun r => r.stars = s)
              = ([⟨"a/a", 5⟩, ⟨"b/b", 10⟩, ⟨"c/c", 10⟩] :
                  List RawRepo).filter (fun r => r.stars = s))
        ∧ rank [⟨"a/a", 5⟩, ⟨"b/b", 10⟩, ⟨"c/c", 10⟩]
            = [⟨1, "b/b", 10⟩, ⟨2, "c/c", 10⟩, ⟨3, "a/a", 5⟩]) :=
  ⟨by decide, C6_rank_sorted_dense_stable _ (by decide)⟩

/-- C8 counterexample: the language C# is configured with UI file
identifier CSharp, while the collection stage slug is csharp, so the
homepage requests data/processed/top10_CSharp.csv — not the
top10_csharp.csv that slug-based naming produces.  The UI path is not the
path the pipeline writes. -/
theorem C8_counterexample :
    ("CSharp", "C#") ∈ uiLanguages
    ∧ get_fs_friendly_lang "c#" = "csharp"
    ∧ loadCSVPath "data/processed" "top10_" "CSharp"
        ≠ "data/processed/" ++ specTop10FileName (get_fs_friendly_lang "c#")
    := by
  refine ⟨by decide, rfl, by decide⟩

/-- C8 amended: each UI page builds its path deterministically from the
UI hardcoded file identifier — the homepage asks for
data/processed/top10_id.csv and the language page for
../data/processed/id.csv, so the two pages agree with each other; every
UI display name lowercased is a configured canonical name (or the extra
Prolog entry); but for every entry the identifier differs from the slug
of its canonical name, so no UI path equals the corresponding slug-named
file of the collection stage. -/
theorem C8_ui_ids_differ_from_slugs :
    (uiLanguages.all (fun e =>
        (loadCSVPath "data/processed" "top10_" e.1
            == "data/processed/" ++ specTop10FileName e.1)
        && (csvPath e.1 == "../data/processed/" ++ specFullFileName e.1)))
      = true
    ∧ (uiLanguages.all (fun e =>
        (lowerName e.2 == "prolog") || languages.contains (lowerName e.2)))
      = true
    ∧ (uiLanguages.all (fun e =>
        !(e.1 == get_fs_friendly_lang (lowerName e.2)))) = true := by
  refine ⟨by decide, by decide, by decide⟩

end KStars
